import Mathlib

/-!
Verification of the ironxyz/mcp-server OpenAPI spec-processing layer.

The runtime data handled by the server (parsed YAML/JSON OpenAPI documents,
tool arguments, HTTP payloads) is modelled by the JSON value type `Json`
below, mirroring the source's `JsonValue` union
(`string | number | boolean | null | JsonValue[] | {[key: string]: JsonValue}`).
JavaScript numbers are modelled as integers (`Int`); none of the verified
code paths depends on non-integral or non-finite numbers.
JavaScript objects are modelled as insertion-ordered association lists;
objects produced by the JavaScript runtime have pairwise distinct keys,
which theorems assume explicitly (`Nodup`) where it matters.
-/

inductive Json where
  | str (s : String)
  | num (n : Int)
  | bool (b : Bool)
  | null
  | arr (items : List Json)
  | obj (entries : List (String × Json))
deriving Repr

mutual

/-- Structural equality test for `Json` (nested inductives do not support
`deriving DecidableEq`, so the instance is built by hand below). -/
def Json.beq : Json → Json → Bool
  | .str a, .str b => a == b
  | .num a, .num b => a == b
  | .bool a, .bool b => a == b
  | .null, .null => true
  | .arr a, .arr b => Json.beqList a b
  | .obj a, .obj b => Json.beqKVs a b
  | _, _ => false

def Json.beqList : List Json → List Json → Bool
  | [], [] => true
  | a :: as, b :: bs => Json.beq a b && Json.beqList as bs
  | _, _ => false

def Json.beqKVs : List (String × Json) → List (String × Json) → Bool
  | [], [] => true
  | (k, a) :: as, (k', b) :: bs => k == k' && Json.beq a b && Json.beqKVs as bs
  | _, _ => false

end

mutual

theorem Json.beq_iff : ∀ a b : Json, (Json.beq a b = true) ↔ a = b
  | .str _, b => by cases b <;> simp [Json.beq]
  | .num _, b => by cases b <;> simp [Json.beq]
  | .bool _, b => by cases b <;> simp [Json.beq]
  | .null, b => by cases b <;> simp [Json.beq]
  | .arr as, b => by
      cases b <;> simp [Json.beq]
      exact Json.beqList_iff as _
  | .obj as, b => by
      cases b <;> simp [Json.beq]
      exact Json.beqKVs_iff as _

theorem Json.beqList_iff : ∀ a b : List Json, (Json.beqList a b = true) ↔ a = b
  | [], b => by cases b <;> simp [Json.beqList]
  | a :: as, [] => by simp [Json.beqList]
  | a :: as, b :: bs => by
      simp [Json.beqList, Json.beq_iff a b, Json.beqList_iff as bs]

theorem Json.beqKVs_iff :
    ∀ a b : List (String × Json), (Json.beqKVs a b = true) ↔ a = b
  | [], b => by cases b <;> simp [Json.beqKVs]
  | a :: as, [] => by simp [Json.beqKVs]
  | (k, a) :: as, (k', b) :: bs => by
      simp [Json.beqKVs, Json.beq_iff a b, Json.beqKVs_iff as bs, and_assoc]

end

instance : DecidableEq Json := fun a b =>
  decidable_of_iff (Json.beq a b = true) (Json.beq_iff a b)

/-- First-match association-list lookup; on runtime JavaScript objects
(whose keys are distinct) this is exactly `o[k]`, with `none` for `undefined`. -/
def lookupKey (k : String) : List (String × Json) → Option Json
  | [] => none
  | (k', v) :: rest => if k' = k then some v else lookupKey k rest

/-- JavaScript truthiness of a JSON value: `null`, `false`, `0` and `""` are
falsy; every array and object is truthy. -/
def Json.truthy : Json → Bool
  | .null => false
  | .bool b => b
  | .num n => n != 0
  | .str s => s != ""
  | .arr _ => true
  | .obj _ => true

/-- Truthiness of a possibly-`undefined` value (`undefined` is falsy). -/
def truthyOpt : Option Json → Bool
  | none => false
  | some j => j.truthy

/-- JavaScript property access `j[k]` for a string key, `none` for `undefined`:
only objects carry (non-index, non-prototype) string-keyed own properties. -/
def Json.getField (j : Json) (k : String) : Option Json :=
  match j with
  | .obj kvs => lookupKey k kvs
  | _ => none

/-- `Object.entries(j)`.  For objects this is the insertion-ordered entry
list; for arrays and strings it is index-keyed entries.  `Object.entries`
on `null` throws a `TypeError` in JavaScript; that case is never exercised
by the theorems below (path items are required to be objects there). -/
def entriesOf : Json → List (String × Json)
  | .obj kvs => kvs
  | .arr l => (l.enum).map (fun p => (toString p.1, p.2))
  | .str s => (s.data.enum).map (fun p => (toString p.1, Json.str (String.singleton p.2)))
  | _ => []

/-- ASCII-wise `String.prototype.toUpperCase` (the method keys the server
handles are ASCII; `Char.toUpper` is the identity beyond ASCII). -/
def toUpperAscii (s : String) : String := ⟨s.data.map Char.toUpper⟩

/-- ASCII-wise `String.prototype.toLowerCase`. -/
def toLowerAscii (s : String) : String := ⟨s.data.map Char.toLower⟩

example : toUpperAscii "Get" = "GET" := by decide
example : toLowerAscii "GET" = "get" := by decide
example : lookupKey "get" [("Get", Json.null)] = none := by decide

/-- The parsed OpenAPI document, as used by the server: `info`,
`paths` (path template → path item) and `components.schemas`
(schema name → schema).  An absent `components`/`schemas` section is
modelled by the empty schema table, since the source only ever reads
`spec.components?.schemas?.[name]`. -/
structure OpenAPISpec where
  info : Option Json
  paths : List (String × Json)
  schemas : List (String × Json)
deriving Repr, DecidableEq

mutual

/-- All strings occurring as the value of a `"$ref"` key anywhere in a node
(used only for the termination measure of the resolver). -/
def jrefs : Json → Finset String
  | .arr l => lrefs l
  | .obj kvs => krefs kvs
  | _ => ∅

def lrefs : List Json → Finset String
  | [] => ∅
  | j :: t => jrefs j ∪ lrefs t

def krefs : List (String × Json) → Finset String
  | [] => ∅
  | (k, x) :: t =>
      (if k = "$ref" then (match x with | .str s => {s} | _ => ∅) else ∅) ∪
        jrefs x ∪ krefs t

end

/-- All `$ref` strings occurring in the spec's schema table. -/
def specRefs (spec : OpenAPISpec) : Finset String := krefs spec.schemas

mutual

/-- Computable structural size of a JSON node (termination measure only). -/
def jsize : Json → Nat
  | .arr l => 1 + lsize l
  | .obj kvs => 1 + ksize kvs
  | _ => 1

def lsize : List Json → Nat
  | [] => 0
  | j :: t => 1 + jsize j + lsize t

def ksize : List (String × Json) → Nat
  | [] => 0
  | (_, x) :: t => 1 + jsize x + ksize t

end

theorem lookupKey_jsize {k : String} :
    ∀ {kvs : List (String × Json)} {v : Json},
      lookupKey k kvs = some v → jsize v < ksize kvs := by
  intro kvs
  induction kvs with
  | nil => intro v h; simp [lookupKey] at h
  | cons p rest ih =>
      intro v h
      obtain ⟨k', x⟩ := p
      simp only [lookupKey] at h
      split at h
      · cases h
        simp only [ksize]
        omega
      · have := ih h
        simp only [ksize]
        omega

theorem lookupKey_refs_subset {k : String} :
    ∀ {kvs : List (String × Json)} {v : Json},
      lookupKey k kvs = some v → jrefs v ⊆ krefs kvs := by
  intro kvs
  induction kvs with
  | nil => intro v h; simp [lookupKey] at h
  | cons p rest ih =>
      intro v h
      obtain ⟨k', x⟩ := p
      simp only [lookupKey] at h
      split at h
      · cases h
        simp only [krefs]
        intro a ha
        exact Finset.mem_union_left _ (Finset.mem_union_right _ ha)
      · have := ih h
        simp only [krefs]
        intro a ha
        exact Finset.mem_union_right _ (this ha)

theorem lookupKey_ref_mem :
    ∀ {kvs : List (String × Json)} {s : String},
      lookupKey "$ref" kvs = some (.str s) → s ∈ krefs kvs := by
  intro kvs
  induction kvs with
  | nil => intro s h; simp [lookupKey] at h
  | cons p rest ih =>
      intro s h
      obtain ⟨k', x⟩ := p
      simp only [lookupKey] at h
      split at h
      · cases h
        simp_all only [krefs, if_pos]
        apply Finset.mem_union_left
        apply Finset.mem_union_left
        simp
      · have := ih h
        simp only [krefs]
        exact Finset.mem_union_right _ this

/-- Splitting on `'/'`, structurally over the character list (semantically
`String.prototype.split("/")`, e.g. `"" ↦ [""]`, `"a/" ↦ ["a", ""]`). -/
def splitSlashAux : List Char → List Char → List String
  | [], acc => [⟨acc.reverse⟩]
  | c :: rest, acc =>
      if c = '/' then ⟨acc.reverse⟩ :: splitSlashAux rest []
      else splitSlashAux rest (c :: acc)

/-- `ref.split("/")` from the source. -/
def splitSlash (s : String) : List String := splitSlashAux s.data []

example : splitSlash "#/components/schemas/A" = ["#", "components", "schemas", "A"] := by
  decide

/-- Parsing and dereferencing of a `$ref` string, combining the source's
`ref.split("/")` prefix check (`#/components/schemas/<Name>`), the schema
table lookup, and the JavaScript truthiness test `if (referencedSchema)`.
Returns `none` exactly when the source falls through to `return obj`. -/
def refTarget (spec : OpenAPISpec) (s : String) : Option Json :=
  if ((splitSlash s).get? 0 = some "#" ∧ (splitSlash s).get? 1 = some "components" ∧
      (splitSlash s).get? 2 = some "schemas") then
    match (splitSlash s).get? 3 with
    | none => none
    | some name =>
        match lookupKey name spec.schemas with
        | none => none
        | some sch => if sch.truthy then some sch else none
  else none

theorem refTarget_lookup {spec : OpenAPISpec} {s : String} {sch : Json}
    (h : refTarget spec s = some sch) :
    ∃ name, lookupKey name spec.schemas = some sch := by
  unfold refTarget at h
  split at h
  · split at h
    · cases h
    · rename_i name _
      split at h
      · cases h
      · rename_i sch' hl
        split at h
        · cases h; exact ⟨name, hl⟩
        · cases h
  · cases h

theorem refTarget_jsize {spec : OpenAPISpec} {s : String} {sch : Json}
    (h : refTarget spec s = some sch) : jsize sch < ksize spec.schemas := by
  obtain ⟨name, hl⟩ := refTarget_lookup h
  exact lookupKey_jsize hl

theorem refTarget_refs {spec : OpenAPISpec} {s : String} {sch : Json}
    (h : refTarget spec s = some sch) : jrefs sch ⊆ specRefs spec := by
  obtain ⟨name, hl⟩ := refTarget_lookup h
  exact lookupKey_refs_subset hl

/-- Number of not-yet-visited reference strings relevant to a node with
reference set `R`; first component of the resolver's termination measure. -/
def unres (spec : OpenAPISpec) (R : Finset String) (v : List String) : Nat :=
  ((specRefs spec ∪ R) \ v.toFinset).card

theorem unres_mono {spec : OpenAPISpec} {R R' : Finset String}
    {v v' : List String} (hR : R' ⊆ R) (hv : v.toFinset ⊆ v'.toFinset) :
    unres spec R' v' ≤ unres spec R v := by
  apply Finset.card_le_card
  intro x hx
  rw [Finset.mem_sdiff] at hx ⊢
  rcases hx with ⟨hx1, hx2⟩
  constructor
  · exact Finset.union_subset_union_right hR hx1
  · intro hc; exact hx2 (hv hc)

theorem unres_expand {spec : OpenAPISpec} {R R' : Finset String} {s : String}
    {v : List String} (hmem : s ∈ R) (hnv : s ∉ v)
    (hsub : R' ⊆ specRefs spec) :
    unres spec R' (s :: v) < unres spec R v := by
  apply Finset.card_lt_card
  rw [Finset.ssubset_def]
  constructor
  · intro x hx
    rw [Finset.mem_sdiff] at hx ⊢
    rcases hx with ⟨hx1, hx2⟩
    refine ⟨?_, ?_⟩
    · rcases Finset.mem_union.mp hx1 with h1 | h1
      · exact Finset.mem_union_left _ h1
      · exact Finset.mem_union_left _ (hsub h1)
    · intro hc
      exact hx2 (by simp [List.toFinset_cons]; right; exact List.mem_toFinset.mp hc)
  · intro hsub2
    have hsmem : s ∈ (specRefs spec ∪ R) \ v.toFinset := by
      rw [Finset.mem_sdiff]
      exact ⟨Finset.mem_union_right _ hmem, by simpa using hnv⟩
    have := hsub2 hsmem
    rw [Finset.mem_sdiff] at this
    exact this.2 (by simp [List.toFinset_cons])

theorem toFinset_subset_append_right (d v : List String) :
    v.toFinset ⊆ (d ++ v).toFinset := by
  intro x hx
  simp only [List.mem_toFinset, List.mem_append] at hx ⊢
  exact Or.inr hx

/-- The termination measure: lexicographic in (unvisited refs, node size),
packed into one natural number using the size bound on schema bodies. -/
def measJ (spec : OpenAPISpec) (j : Json) (v : List String) : Nat :=
  unres spec (jrefs j) v * (ksize spec.schemas + 1) + jsize j

def measL (spec : OpenAPISpec) (l : List Json) (v : List String) : Nat :=
  unres spec (lrefs l) v * (ksize spec.schemas + 1) + lsize l

def measK (spec : OpenAPISpec) (kvs : List (String × Json)) (v : List String) : Nat :=
  unres spec (krefs kvs) v * (ksize spec.schemas + 1) + ksize kvs

theorem meas_step {spec : OpenAPISpec} {R R' : Finset String}
    {v v' : List String} {s1 s2 : Nat} (hR : R' ⊆ R)
    (hv : v.toFinset ⊆ v'.toFinset) (hs : s1 < s2) :
    unres spec R' v' * (ksize spec.schemas + 1) + s1 <
      unres spec R v * (ksize spec.schemas + 1) + s2 := by
  have h := @unres_mono spec R R' v v' hR hv
  have := Nat.mul_le_mul_right (ksize spec.schemas + 1) h
  omega

theorem meas_expand {spec : OpenAPISpec} {R R' : Finset String} {s : String}
    {v : List String} {s1 s2 : Nat} (hmem : s ∈ R) (hnv : s ∉ v)
    (hsub : R' ⊆ specRefs spec) (hsz : s1 ≤ ksize spec.schemas) :
    unres spec R' (s :: v) * (ksize spec.schemas + 1) + s1 <
      unres spec R v * (ksize spec.schemas + 1) + s2 := by
  have h := @unres_expand spec R R' s v hmem hnv hsub
  have h2 : unres spec R' (s :: v) + 1 ≤ unres spec R v := h
  have h3 := Nat.mul_le_mul_right (ksize spec.schemas + 1) h2
  have e : (unres spec R' (s :: v) + 1) * (ksize spec.schemas + 1) =
      unres spec R' (s :: v) * (ksize spec.schemas + 1) +
        (ksize spec.schemas + 1) := by ring
  omega

mutual

/-- Embedding of `resolveSchemaReferences(obj, spec, visited)` from the
server source.  The source threads a single *mutable* `Set` of visited ref
strings through the entire traversal (the same set object is shared by
sibling array elements and sibling object properties).  Here the state is
passed explicitly: `resolveA spec j v = (resolved, d)` where `v` is the
visited set on entry (as a list, membership only) and `d` lists the ref
strings newly added by this call, so that the set on exit is `d ++ v`.

Branches, in source order:
primitives pass through; arrays resolve element-wise (sharing the visited
set across elements); an object carrying a `"$ref"` key whose ref string
was already visited returns the bare `{$ref}` wrapper (cycle guard);
otherwise the ref string is added to the visited set and, if it
dereferences (see `refTarget`), resolution recurses into the referenced
schema, else the node is returned unchanged; an object without `"$ref"`
is resolved property-by-property (the source's `isJsonValue` filter is
always true on `Json`, which is exactly the `JsonValue` union).
A `"$ref"` key with a non-string value would make the source throw a
`TypeError` at `ref.split("/")`; that (never-exercised) case is modelled
as returning the node unchanged. -/
def resolveA (spec : OpenAPISpec) : Json → List String → Json × List String
  | .str s, _ => (.str s, [])
  | .num n, _ => (.num n, [])
  | .bool b, _ => (.bool b, [])
  | .null, _ => (.null, [])
  | .arr items, v =>
      let p := resolveListA spec items v
      (.arr p.1, p.2)
  | .obj kvs, v =>
      match href : lookupKey "$ref" kvs with
      | some (.str s) =>
          if hs : s ∈ v then (Json.obj [("$ref", Json.str s)], [])
          else
            match ht : refTarget spec s with
            | some sch =>
                let p := resolveA spec sch (s :: v)
                (p.1, p.2 ++ [s])
            | none => (Json.obj kvs, [s])
      | some _ => (Json.obj kvs, [])
      | none =>
          let p := resolveKVsA spec kvs v
          (.obj p.1, p.2)
termination_by j v => measJ spec j v
decreasing_by
  · exact meas_step (by simp only [jrefs]; exact Finset.Subset.refl _)
      (Finset.Subset.refl _) (by simp only [jsize]; omega)
  · exact meas_expand (lookupKey_ref_mem href) hs (refTarget_refs ht)
      (Nat.le_of_lt (refTarget_jsize ht))
  · exact meas_step (by simp only [jrefs]; exact Finset.Subset.refl _)
      (Finset.Subset.refl _) (by simp only [jsize]; omega)

def resolveListA (spec : OpenAPISpec) :
    List Json → List String → List Json × List String
  | [], _ => ([], [])
  | j :: rest, v =>
      let p := resolveA spec j v
      let q := resolveListA spec rest (p.2 ++ v)
      (p.1 :: q.1, q.2 ++ p.2)
termination_by l v => measL spec l v
decreasing_by
  · exact meas_step (by intro a ha; exact Finset.mem_union_left _ (by simpa [lrefs] using ha))
      (Finset.Subset.refl _) (by simp only [lsize]; omega)
  · exact meas_step (by intro a ha; exact Finset.mem_union_right _ (by simpa [lrefs] using ha))
      (toFinset_subset_append_right _ _) (by simp only [lsize]; omega)

def resolveKVsA (spec : OpenAPISpec) :
    List (String × Json) → List String → List (String × Json) × List String
  | [], _ => ([], [])
  | (k, x) :: rest, v =>
      let p := resolveA spec x v
      let q := resolveKVsA spec rest (p.2 ++ v)
      ((k, p.1) :: q.1, q.2 ++ p.2)
termination_by kvs v => measK spec kvs v
decreasing_by
  · exact meas_step
      (by intro a ha; exact Finset.mem_union_left _ (Finset.mem_union_right _ ha))
      (Finset.Subset.refl _) (by simp only [ksize]; omega)
  · exact meas_step
      (by intro a ha; exact Finset.mem_union_right _ ha)
      (toFinset_subset_append_right _ _) (by simp only [ksize]; omega)

end

/-- Top-level `resolveSchemaReferences(obj, spec)`: the default argument
`visited = new Set()` starts every top-level call from the empty set. -/
def resolveSchemaReferences (spec : OpenAPISpec) (obj : Json) : Json :=
  (resolveA spec obj []).1

theorem resolveA_str (spec : OpenAPISpec) (s : String) (v : List String) :
    resolveA spec (.str s) v = (.str s, []) := by simp [resolveA]

theorem resolveA_num (spec : OpenAPISpec) (n : Int) (v : List String) :
    resolveA spec (.num n) v = (.num n, []) := by simp [resolveA]

theorem resolveA_bool (spec : OpenAPISpec) (b : Bool) (v : List String) :
    resolveA spec (.bool b) v = (.bool b, []) := by simp [resolveA]

theorem resolveA_null (spec : OpenAPISpec) (v : List String) :
    resolveA spec .null v = (.null, []) := by simp [resolveA]

theorem resolveA_arr (spec : OpenAPISpec) (items : List Json) (v : List String) :
    resolveA spec (.arr items) v =
      ((resolveListA spec items v).1 |> Json.arr, (resolveListA spec items v).2) := by
  simp [resolveA]

theorem resolveA_ref_guard {kvs : List (String × Json)} {s : String}
    (spec : OpenAPISpec) {v : List String}
    (href : lookupKey "$ref" kvs = some (.str s)) (hs : s ∈ v) :
    resolveA spec (.obj kvs) v = (Json.obj [("$ref", Json.str s)], []) := by
  simp only [resolveA]
  split
  · rename_i s' heq
    rw [href] at heq
    simp only [Option.some.injEq, Json.str.injEq] at heq
    subst heq
    simp [hs]
  · rename_i val hne heq
    rw [href] at heq
    simp only [Option.some.injEq] at heq
    exact (hne s heq.symm).elim
  · rename_i heq
    rw [href] at heq
    simp at heq

theorem resolveA_ref_expand {kvs : List (String × Json)} {s : String} {sch : Json}
    (spec : OpenAPISpec) {v : List String}
    (href : lookupKey "$ref" kvs = some (.str s)) (hs : s ∉ v)
    (ht : refTarget spec s = some sch) :
    resolveA spec (.obj kvs) v =
      ((resolveA spec sch (s :: v)).1, (resolveA spec sch (s :: v)).2 ++ [s]) := by
  simp only [resolveA]
  split
  · rename_i s' heq
    rw [href] at heq
    simp only [Option.some.injEq, Json.str.injEq] at heq
    subst heq
    rw [dif_neg hs]
    split
    · rename_i sch' ht'
      rw [ht] at ht'
      simp only [Option.some.injEq] at ht'
      subst ht'
      rfl
    · rename_i ht'
      rw [ht] at ht'
      simp at ht'
  · rename_i val hne heq
    rw [href] at heq
    simp only [Option.some.injEq] at heq
    exact (hne s heq.symm).elim
  · rename_i heq
    rw [href] at heq
    simp at heq

theorem resolveA_ref_opaque {kvs : List (String × Json)} {s : String}
    (spec : OpenAPISpec) {v : List String}
    (href : lookupKey "$ref" kvs = some (.str s)) (hs : s ∉ v)
    (ht : refTarget spec s = none) :
    resolveA spec (.obj kvs) v = (Json.obj kvs, [s]) := by
  simp only [resolveA]
  split
  · rename_i s' heq
    rw [href] at heq
    simp only [Option.some.injEq, Json.str.injEq] at heq
    subst heq
    rw [dif_neg hs]
    split
    · rename_i sch' ht'
      rw [ht] at ht'
      simp at ht'
    · rfl
  · rename_i val hne heq
    rw [href] at heq
    simp only [Option.some.injEq] at heq
    exact (hne s heq.symm).elim
  · rename_i heq
    rw [href] at heq
    simp at heq

theorem resolveA_obj_plain {kvs : List (String × Json)}
    (spec : OpenAPISpec) {v : List String}
    (href : lookupKey "$ref" kvs = none) :
    resolveA spec (.obj kvs) v =
      ((resolveKVsA spec kvs v).1 |> Json.obj, (resolveKVsA spec kvs v).2) := by
  simp only [resolveA]
  split
  · rename_i s' heq
    rw [href] at heq
    simp at heq
  · rename_i val hne heq
    rw [href] at heq
    simp at heq
  · rfl

theorem resolveListA_nil (spec : OpenAPISpec) (v : List String) :
    resolveListA spec [] v = ([], []) := by simp [resolveListA]

theorem resolveListA_cons (spec : OpenAPISpec) (j : Json) (rest : List Json)
    (v : List String) :
    resolveListA spec (j :: rest) v =
      ((resolveA spec j v).1 ::
          (resolveListA spec rest ((resolveA spec j v).2 ++ v)).1,
        (resolveListA spec rest ((resolveA spec j v).2 ++ v)).2 ++
          (resolveA spec j v).2) := by
  simp [resolveListA]

theorem resolveKVsA_nil (spec : OpenAPISpec) (v : List String) :
    resolveKVsA spec [] v = ([], []) := by simp [resolveKVsA]

theorem resolveKVsA_cons (spec : OpenAPISpec) (k : String) (x : Json)
    (rest : List (String × Json)) (v : List String) :
    resolveKVsA spec ((k, x) :: rest) v =
      ((k, (resolveA spec x v).1) ::
          (resolveKVsA spec rest ((resolveA spec x v).2 ++ v)).1,
        (resolveKVsA spec rest ((resolveA spec x v).2 ++ v)).2 ++
          (resolveA spec x v).2) := by
  simp [resolveKVsA]

mutual

/-- A node (tree) containing no `"$ref"` key at any object level. -/
def refFree : Json → Bool
  | .arr l => refFreeL l
  | .obj kvs => (lookupKey "$ref" kvs).isNone && refFreeKVs kvs
  | _ => true

def refFreeL : List Json → Bool
  | [] => true
  | j :: t => refFree j && refFreeL t

def refFreeKVs : List (String × Json) → Bool
  | [] => true
  | (_, x) :: t => refFree x && refFreeKVs t

end

mutual

theorem resolveA_refFree (spec : OpenAPISpec) :
    ∀ (j : Json) (v : List String), refFree j = true → resolveA spec j v = (j, [])
  | .str s, v, _ => resolveA_str spec s v
  | .num n, v, _ => resolveA_num spec n v
  | .bool b, v, _ => resolveA_bool spec b v
  | .null, v, _ => resolveA_null spec v
  | .arr items, v, h => by
      rw [resolveA_arr,
        resolveListA_refFree spec items v (by simpa [refFree] using h)]
  | .obj kvs, v, h => by
      have h' := h
      simp only [refFree, Bool.and_eq_true, Option.isNone_iff_eq_none] at h'
      rw [resolveA_obj_plain spec h'.1,
        resolveKVsA_refFree spec kvs v h'.2]

theorem resolveListA_refFree (spec : OpenAPISpec) :
    ∀ (l : List Json) (v : List String),
      refFreeL l = true → resolveListA spec l v = (l, [])
  | [], v, _ => resolveListA_nil spec v
  | j :: t, v, h => by
      have h' := h
      simp only [refFreeL, Bool.and_eq_true] at h'
      rw [resolveListA_cons, resolveA_refFree spec j v h'.1]
      simp only [List.nil_append]
      rw [resolveListA_refFree spec t v h'.2]
      simp

theorem resolveKVsA_refFree (spec : OpenAPISpec) :
    ∀ (kvs : List (String × Json)) (v : List String),
      refFreeKVs kvs = true → resolveKVsA spec kvs v = (kvs, [])
  | [], v, _ => resolveKVsA_nil spec v
  | (k, x) :: t, v, h => by
      have h' := h
      simp only [refFreeKVs, Bool.and_eq_true] at h'
      rw [resolveKVsA_cons, resolveA_refFree spec x v h'.1]
      simp only [List.nil_append]
      rw [resolveKVsA_refFree spec t v h'.2]
      simp

end

/-- A node `j` reaches, through array elements and through the properties of
objects that themselves carry no `"$ref"` key, an object whose `"$ref"` key
holds the string `r` (the shape of a self-reference inside a schema body). -/
inductive Reaches (r : String) : Json → Prop where
  | here {kvs : List (String × Json)} :
      lookupKey "$ref" kvs = some (.str r) → Reaches r (.obj kvs)
  | inArr {l : List Json} {j : Json} :
      j ∈ l → Reaches r j → Reaches r (.arr l)
  | inObj {kvs : List (String × Json)} {k : String} {x : Json} :
      lookupKey "$ref" kvs = none → (k, x) ∈ kvs → Reaches r x →
        Reaches r (.obj kvs)

/-- Subterm containment along array elements and object property values. -/
inductive JContains (x : Json) : Json → Prop where
  | refl : JContains x x
  | inArr {l : List Json} {j : Json} :
      j ∈ l → JContains x j → JContains x (.arr l)
  | inObj {kvs : List (String × Json)} {k : String} {j : Json} :
      (k, j) ∈ kvs → JContains x j → JContains x (.obj kvs)

theorem Reaches_truthy {r : String} : ∀ {j : Json}, Reaches r j → j.truthy = true := by
  intro j h
  cases h <;> simp [Json.truthy]

theorem resolveListA_mem (spec : OpenAPISpec) :
    ∀ (l : List Json) (v : List String) {j : Json}, j ∈ l →
      ∃ w, (∀ x ∈ v, x ∈ w) ∧ (resolveA spec j w).1 ∈ (resolveListA spec l v).1
  | [], v, j, h => absurd h (List.not_mem_nil j)
  | a :: t, v, j, h => by
      rw [resolveListA_cons]
      rcases List.mem_cons.mp h with rfl | hmem
      · exact ⟨v, fun x hx => hx, by simp⟩
      · obtain ⟨w, hw, hmem2⟩ :=
          resolveListA_mem spec t ((resolveA spec a v).2 ++ v) hmem
        exact ⟨w, fun x hx => hw x (by simp [hx]), by simp [hmem2]⟩

theorem resolveKVsA_mem (spec : OpenAPISpec) :
    ∀ (kvs : List (String × Json)) (v : List String) {k : String} {x : Json},
      (k, x) ∈ kvs →
      ∃ w, (∀ y ∈ v, y ∈ w) ∧
        (k, (resolveA spec x w).1) ∈ (resolveKVsA spec kvs v).1
  | [], v, k, x, h => absurd h (List.not_mem_nil (k, x))
  | (k', a) :: t, v, k, x, h => by
      rw [resolveKVsA_cons]
      rcases List.mem_cons.mp h with heq | hmem
      · obtain ⟨rfl, rfl⟩ : k' = k ∧ a = x := by
          constructor
          · exact congrArg Prod.fst heq.symm
          · exact congrArg Prod.snd heq.symm
        exact ⟨v, fun y hy => hy, by simp⟩
      · obtain ⟨w, hw, hmem2⟩ :=
          resolveKVsA_mem spec t ((resolveA spec a v).2 ++ v) hmem
        exact ⟨w, fun y hy => hw y (by simp [hy]), by simp [hmem2]⟩

theorem resolveA_reaches (spec : OpenAPISpec) {r : String} {j : Json}
    (hre : Reaches r j) :
    ∀ (v : List String), r ∈ v →
      JContains (Json.obj [("$ref", Json.str r)]) (resolveA spec j v).1 := by
  induction hre with
  | here href =>
      intro v hrv
      rw [resolveA_ref_guard spec href hrv]
      exact JContains.refl
  | inArr hmem _ ih =>
      intro v hrv
      rw [resolveA_arr]
      obtain ⟨w, hw, hmemres⟩ := resolveListA_mem spec _ v hmem
      exact JContains.inArr hmemres (ih w (hw r hrv))
  | inObj hnone hmem _ ih =>
      intro v hrv
      rw [resolveA_obj_plain spec hnone]
      obtain ⟨w, hw, hmemres⟩ := resolveKVsA_mem spec _ v hmem
      exact JContains.inObj hmemres (ih w (hw r hrv))

/-- `isOpenAPIOperation` from the server's types module: the value must
satisfy `typeof value === "object" && value !== null` and carry at least one
of the keys `responses`, `summary`, `description`, `operationId` (via the
JavaScript `in` operator).  Arrays do satisfy `typeof === "object"`, but
none of the four probed keys is an array index, so `in` is false on them;
`null` fails the null check; primitives fail the typeof check. -/
def isOpenAPIOperation : Json → Bool
  | .obj kvs =>
      (lookupKey "responses" kvs).isSome || (lookupKey "summary" kvs).isSome ||
        (lookupKey "description" kvs).isSome ||
        (lookupKey "operationId" kvs).isSome
  | _ => false

/-- One element of the list built by `extractEndpointSummaries`: field reads
on the operation are JavaScript property accesses, so absent fields are
`undefined` (`none`). -/
structure EndpointSummary where
  path : String
  method : String
  summary : Option Json
  description : Option Json
  operationId : Option Json
  tags : Option Json
deriving Repr, DecidableEq

def mkSummary (path method : String) (operation : Json) : EndpointSummary :=
  { path := path
    method := toUpperAscii method
    summary := operation.getField "summary"
    description := operation.getField "description"
    operationId := operation.getField "operationId"
    tags := operation.getField "tags" }

/-- `extractEndpointSummaries(spec)`: the source's two nested `for`-loops
over `Object.entries(spec.paths)` and `Object.entries(pathItem)` with a
conditional `push`, written as left folds over the entry lists. -/
def extractEndpointSummaries (spec : OpenAPISpec) : List EndpointSummary :=
  spec.paths.foldl
    (fun acc pe =>
      (entriesOf pe.2).foldl
        (fun acc2 me =>
          if isOpenAPIOperation me.2 then acc2 ++ [mkSummary pe.1 me.1 me.2]
          else acc2)
        acc)
    []

mutual

/-- JavaScript `String(value)` on a JSON value: numbers print in decimal,
`null` prints `"null"`, arrays join their elements with `","` (with `null`
elements printing as the empty string), plain objects print
`"[object Object]"`. -/
def jsToString : Json → String
  | .str s => s
  | .num n => toString n
  | .bool b => if b then "true" else "false"
  | .null => "null"
  | .arr l => jsToStringList l
  | .obj _ => "[object Object]"

def jsToStringList : List Json → String
  | [] => ""
  | [x] => jsElemString x
  | x :: rest => jsElemString x ++ "," ++ jsToStringList rest

def jsElemString : Json → String
  | .null => ""
  | .str s => s
  | .num n => toString n
  | .bool b => if b then "true" else "false"
  | .arr l => jsToStringList l
  | .obj _ => "[object Object]"

end

/-- JavaScript `x?.[0]`: `undefined` on `null`/`undefined`/empty arrays and
non-indexable primitives, the first element on arrays, the first character
on strings, the `"0"` property on objects. -/
def jsIndex0 : Json → Option Json
  | .null => none
  | .arr l => l.head?
  | .str s => (s.data.head?).map (fun c => Json.str (String.singleton c))
  | .obj kvs => lookupKey "0" kvs
  | _ => none

/-- The grouping key `endpoint.tags?.[0] || "default"` of `createSummary`,
including the JavaScript string coercion of the key used to index
`groupedByTag` (a falsy first tag, e.g. `""`, also falls back). -/
def primaryTag (e : EndpointSummary) : String :=
  match e.tags with
  | none => "default"
  | some t =>
      match jsIndex0 t with
      | none => "default"
      | some x => if x.truthy then jsToString x else "default"

def lookupBucket (k : String) :
    List (String × List EndpointSummary) → Option (List EndpointSummary)
  | [] => none
  | (k', v) :: rest => if k' = k then some v else lookupBucket k rest

/-- `groupedByTag[tag].push(endpoint)`, creating the bucket first when the
key is absent (a fresh key is appended in JavaScript object key order;
an existing bucket array is always truthy, so it is pushed onto). -/
def addToBucket (m : List (String × List EndpointSummary)) (tag : String)
    (e : EndpointSummary) : List (String × List EndpointSummary) :=
  match lookupBucket tag m with
  | some _ => m.map (fun p => if p.1 = tag then (p.1, p.2 ++ [e]) else p)
  | none => m ++ [(tag, [e])]

structure ApiSummary where
  info : Option Json
  totalEndpoints : Nat
  endpointsByTag : List (String × List EndpointSummary)
deriving Repr, DecidableEq

/-- `createSummary(spec)`. -/
def createSummary (spec : OpenAPISpec) : ApiSummary :=
  { info := spec.info
    totalEndpoints := (extractEndpointSummaries spec).length
    endpointsByTag :=
      (extractEndpointSummaries spec).foldl
        (fun m e => addToBucket m (primaryTag e) e) [] }

/-- The pure part of `handleListAllEndpoints`: build the summary, then
filter.  `if (args.filterByTag)` is a truthiness test, so a missing *or
empty* tag string leaves the summary unfiltered; `if (filteredEndpoints)`
tests the bucket array, which is always truthy when present. -/
def handleListAllEndpoints (spec : OpenAPISpec) (filterByTag : Option String) :
    ApiSummary :=
  let result := createSummary spec
  match filterByTag with
  | none => result
  | some tag =>
      if tag = "" then result
      else
        match lookupBucket tag result.endpointsByTag with
        | some l =>
            { result with endpointsByTag := [(tag, l)], totalEndpoints := l.length }
        | none => { result with endpointsByTag := [], totalEndpoints := 0 }

/-- The record built by `getEndpointDetails`; every field is a JavaScript
property access on the found operation value. -/
structure EndpointDetails where
  summary : Option Json
  description : Option Json
  operationId : Option Json
  parameters : Option Json
  requestBody : Option Json
  responses : Option Json
  tags : Option Json
deriving Repr, DecidableEq

/-- `getEndpointDetails(spec, path, method)`: falsiness of
`spec.paths[path]` or of `pathItem[method.toLowerCase()]` yields `null`;
no operation-shape check is applied.  (JavaScript index access on *string*
path items, e.g. `"abc"["0"]`, is not modelled; the claims only exercise
object path items.) -/
def getEndpointDetails (spec : OpenAPISpec) (path method : String) :
    Option EndpointDetails :=
  match lookupKey path spec.paths with
  | none => none
  | some pathItem =>
      if pathItem.truthy = false then none
      else
        match pathItem.getField (toLowerAscii method) with
        | none => none
        | some operation =>
            if operation.truthy = false then none
            else some
              { summary := operation.getField "summary"
                description := operation.getField "description"
                operationId := operation.getField "operationId"
                parameters := operation.getField "parameters"
                requestBody := operation.getField "requestBody"
                responses := operation.getField "responses"
                tags := operation.getField "tags" }

/-- A value of TypeScript type `unknown` as it can occur in the
`parameters`/`headers` records of a tool call: either `undefined` or a
JSON value. -/
inductive JSParam where
  | undef
  | val (j : Json)
deriving Repr, DecidableEq

def hexDigitUpper (n : Nat) : Char :=
  if n < 10 then Char.ofNat (48 + n) else Char.ofNat (55 + n)

def hexDigitLower (n : Nat) : Char :=
  if n < 10 then Char.ofNat (48 + n) else Char.ofNat (87 + n)

/-- UTF-8 bytes of a character (for percent-encoding). -/
def utf8Bytes (c : Char) : List Nat :=
  let n := c.toNat
  if n < 0x80 then [n]
  else if n < 0x800 then [0xC0 + n / 0x40, 0x80 + n % 0x40]
  else if n < 0x10000 then
    [0xE0 + n / 0x1000, 0x80 + (n / 0x40) % 0x40, 0x80 + n % 0x40]
  else
    [0xF0 + n / 0x40000, 0x80 + (n / 0x1000) % 0x40, 0x80 + (n / 0x40) % 0x40,
      0x80 + n % 0x40]

def percentByte (b : Nat) : String :=
  ⟨['%', hexDigitUpper (b / 16 % 16), hexDigitUpper (b % 16)]⟩

/-- Characters the `application/x-www-form-urlencoded` serializer leaves
as-is (`URLSearchParams.toString`). -/
def formUnreserved (c : Char) : Bool :=
  c.isAlphanum || c = '*' || c = '-' || c = '.' || c = '_'

def formEncodeChar (c : Char) : String :=
  if c = ' ' then "+"
  else if formUnreserved c then String.singleton c
  else String.join ((utf8Bytes c).map percentByte)

/-- `application/x-www-form-urlencoded` percent-encoding of one component,
as applied by `URLSearchParams.toString()`. -/
def formEncode (s : String) : String := String.join (s.data.map formEncodeChar)

/-- The query-parameter loop of `handleInvokeApiEndpoint`:
`Object.entries(parameters).forEach(...)` appending
`(key, String(value))` to a `URLSearchParams` for every value that is
neither `undefined` nor `null`. -/
def buildUrlParams (parameters : List (String × JSParam)) :
    List (String × String) :=
  parameters.foldl
    (fun acc kv =>
      match kv.2 with
      | .undef => acc
      | .val .null => acc
      | .val j => acc ++ [(kv.1, jsToString j)])
    []

/-- `URLSearchParams.toString()`: the accumulated pairs serialized as
`k=v` joined by `&`, both components form-urlencoded. -/
def serializeUrlParams (l : List (String × String)) : String :=
  String.intercalate "&" (l.map (fun kv => formEncode kv.1 ++ "=" ++ formEncode kv.2))

/-- `urlParams.toString()` for the params built from `parameters`. -/
def buildQueryString (parameters : List (String × JSParam)) : String :=
  serializeUrlParams (buildUrlParams parameters)

def lookupStr (k : String) : List (String × String) → Option String
  | [] => none
  | (k', v) :: rest => if k' = k then some v else lookupStr k rest

/-- JavaScript object spread `{...base, ...extra}` on string records:
keys of `base` in order (values overridden by `extra` on collision),
then the new keys of `extra` in order. -/
def spreadPairs (base extra : List (String × String)) : List (String × String) :=
  base.map (fun p =>
      match lookupStr p.1 extra with
      | some v => (p.1, v)
      | none => p) ++
    extra.filter (fun p => (lookupStr p.1 base).isNone)

def quoteJsonChar (c : Char) : String :=
  if c = '"' then "\\\""
  else if c = '\\' then "\\\\"
  else if c = '\n' then "\\n"
  else if c = '\t' then "\\t"
  else if c = '\r' then "\\r"
  else if c.toNat = 8 then "\\b"
  else if c.toNat = 12 then "\\f"
  else if c.toNat < 32 then
    "\\u00" ++ ⟨[hexDigitLower (c.toNat / 16), hexDigitLower (c.toNat % 16)]⟩
  else String.singleton c

/-- JSON string quoting as performed by `JSON.stringify`. -/
def quoteJson (s : String) : String :=
  "\"" ++ String.join (s.data.map quoteJsonChar) ++ "\""

mutual

/-- Compact `JSON.stringify(v)` (used for the request body). -/
def jsonStringify : Json → String
  | .str s => quoteJson s
  | .num n => toString n
  | .bool b => if b then "true" else "false"
  | .null => "null"
  | .arr l => "[" ++ jsonStringifyItems l ++ "]"
  | .obj kvs => "\x7b" ++ jsonStringifyProps kvs ++ "\x7d"

def jsonStringifyItems : List Json → String
  | [] => ""
  | [x] => jsonStringify x
  | x :: rest => jsonStringify x ++ "," ++ jsonStringifyItems rest

def jsonStringifyProps : List (String × Json) → String
  | [] => ""
  | [(k, x)] => quoteJson k ++ ":" ++ jsonStringify x
  | (k, x) :: rest =>
      quoteJson k ++ ":" ++ jsonStringify x ++ "," ++ jsonStringifyProps rest

end

def indentSpaces : Nat → String
  | 0 => ""
  | n + 1 => "  " ++ indentSpaces n

mutual

/-- Pretty `JSON.stringify(v, null, 2)` at nesting depth `d` (used in the
markdown formatters). -/
def jsonPretty : Json → Nat → String
  | .str s, _ => quoteJson s
  | .num n, _ => toString n
  | .bool b, _ => if b then "true" else "false"
  | .null, _ => "null"
  | .arr [], _ => "[]"
  | .arr l, d => "[\n" ++ jsonPrettyItems l (d + 1) ++ "\n" ++ indentSpaces d ++ "]"
  | .obj [], _ => "\x7b\x7d"
  | .obj kvs, d =>
      "\x7b\n" ++ jsonPrettyProps kvs (d + 1) ++ "\n" ++ indentSpaces d ++ "\x7d"

def jsonPrettyItems : List Json → Nat → String
  | [], _ => ""
  | [x], d => indentSpaces d ++ jsonPretty x d
  | x :: rest, d =>
      indentSpaces d ++ jsonPretty x d ++ ",\n" ++ jsonPrettyItems rest d

def jsonPrettyProps : List (String × Json) → Nat → String
  | [], _ => ""
  | [(k, x)], d => indentSpaces d ++ quoteJson k ++ ": " ++ jsonPretty x d
  | (k, x) :: rest, d =>
      indentSpaces d ++ quoteJson k ++ ": " ++ jsonPretty x d ++ ",\n" ++
        jsonPrettyProps rest d

end

/-- The normalized `ApiError.response` record `{status, statusText, data?}`. -/
structure ErrResponse where
  status : Int
  statusText : String
  data : Option Json
deriving Repr, DecidableEq

/-- The normalized error record `{message, code?, response?}` from
src/types.ts. -/
structure ApiError where
  message : String
  code : Option String
  response : Option ErrResponse
deriving Repr, DecidableEq

structure RequestInfo where
  path : String
  method : String
deriving Repr, DecidableEq

/-- `formatApiError` from src/formatters/apiResponse.ts, line by line.
`if (error.response)` tests presence (an object is always truthy);
`if (error.response.data)` and `else if (error.code)` are truthiness
tests, so falsy data (`null`, `0`, `""`, `false`) and an empty code string
skip their blocks. -/
def formatApiError (error : ApiError) (requestInfo : RequestInfo)
    (url : String) : String :=
  "# API Error: " ++ requestInfo.method ++ " " ++ requestInfo.path ++ "\n\n" ++
  "## ❌ Request Failed\n" ++
  "- **Endpoint**: `" ++ requestInfo.method ++ " " ++ requestInfo.path ++ "`\n" ++
  "- **URL**: " ++ url ++ "\n" ++
  "- **Error**: " ++ error.message ++ "\n\n" ++
  (match error.response with
    | some resp =>
        "## 📋 Error Details\n" ++
        "- **Status**: " ++ toString resp.status ++ " " ++ resp.statusText ++ "\n" ++
        (if truthyOpt resp.data then
          "- **Server Response**:\n" ++ "```json\n" ++
            jsonPretty (resp.data.getD Json.null) 0 ++ "\n```\n\n"
        else "")
    | none =>
        match error.code with
        | some code =>
            if code ≠ "" then
              "## 🔧 Technical Details\n" ++
              "- **Error Code**: `" ++ code ++ "`\n" ++
              (if code = "ECONNABORTED" then
                "- **Likely Cause**: Request timeout (30 seconds)\n"
              else if code = "ENOTFOUND" then
                "- **Likely Cause**: Network connectivity issue\n"
              else "") ++
              "\n"
            else ""
        | none => "") ++
  "## 💡 Troubleshooting\n" ++
  "- Check if the endpoint path is correct\n" ++
  "- Verify required parameters are provided\n" ++
  "- Ensure API key is valid (if required)\n" ++
  "- Check network connectivity\n\n"

/-- The `ApiResponse` record assembled from the axios response. -/
structure ApiResponse where
  status : Int
  statusText : String
  data : Json
  headers : List (String × String)
deriving Repr, DecidableEq

def statusEmoji (status : Int) : String :=
  if 200 ≤ status ∧ status < 300 then "✅"
  else if 400 ≤ status ∧ status < 500 then "⚠️"
  else "❌"

/-- `formatApiResponse` from src/formatters/apiResponse.ts.  The summary
and operationId interpolations are JavaScript template-literal coercions
of possibly-non-string values; `|| "N/A"` falls back on falsy values. -/
def formatApiResponse (response : ApiResponse)
    (endpointDetails : EndpointDetails) (url : String)
    (requestInfo : RequestInfo) : String :=
  "# API Response: " ++ requestInfo.method ++ " " ++ requestInfo.path ++ "\n\n" ++
  "## 📋 Request Summary\n" ++
  "- **Endpoint**: `" ++ requestInfo.method ++ " " ++ requestInfo.path ++ "`\n" ++
  "- **Operation**: " ++
    (match endpointDetails.summary with
      | some j => if j.truthy then jsToString j else "N/A"
      | none => "N/A") ++ "\n" ++
  "- **URL**: " ++ url ++ "\n" ++
  (if truthyOpt endpointDetails.operationId then
    "- **Operation ID**: `" ++
      jsToString (endpointDetails.operationId.getD Json.null) ++ "`\n"
  else "") ++
  "\n" ++
  "## " ++ statusEmoji response.status ++ " Response Status\n" ++
  "**" ++ toString response.status ++ " " ++ response.statusText ++ "**\n\n" ++
  (if 200 ≤ response.status ∧ response.status < 300 then
    "✅ **Success** - The request completed successfully.\n\n"
  else if 400 ≤ response.status ∧ response.status < 500 then
    "⚠️ **Client Error** - There was an issue with the request.\n\n"
  else "❌ **Server Error** - The server encountered an error.\n\n") ++
  (if response.data.truthy then
    "## 📄 Response Data\n\n" ++ "```json\n" ++ jsonPretty response.data 0 ++
      "\n```\n\n"
  else "")

/-- The configuration fields consulted by `handleInvokeApiEndpoint`
(`environment` and the spec-location fields only affect spec loading,
which is an input here). -/
structure ServerConfig where
  apiKey : Option String
  readOnlyMode : Bool
  baseUrl : String
deriving Repr, DecidableEq

/-- Arguments of the `invoke-api-endpoint` tool. -/
structure InvokeApiEndpointArgs where
  path : String
  method : String
  parameters : Option (List (String × JSParam))
  body : Option Json
  headers : Option (List (String × String))
deriving Repr, DecidableEq

/-- The axios request descriptor assembled before the HTTP call. -/
structure RequestConfig where
  method : String
  url : String
  headers : List (String × String)
  data : Option String
  timeout : Nat
deriving Repr, DecidableEq

/-- The URL composition of `handleInvokeApiEndpoint`: `baseUrl + path`,
plus `?` and the query string when `parameters` is present, non-empty and
serializes to a non-empty string. -/
def requestUrl (config : ServerConfig) (args : InvokeApiEndpointArgs) : String :=
  match args.parameters with
  | none => config.baseUrl ++ args.path
  | some ps =>
      if ps.length > 0 then
        if buildQueryString ps ≠ "" then
          config.baseUrl ++ args.path ++ "?" ++ buildQueryString ps
        else config.baseUrl ++ args.path
      else config.baseUrl ++ args.path

/-- The `requestConfig` passed to axios: method and composed URL, base
headers `X-API-key`/`Content-Type` overlaid with caller headers, the body
JSON-serialized when present (`undefined` otherwise), 30s timeout. -/
def buildRequestConfig (config : ServerConfig) (apiKey : String)
    (args : InvokeApiEndpointArgs) : RequestConfig :=
  { method := args.method
    url := requestUrl config args
    headers :=
      spreadPairs [("X-API-key", apiKey), ("Content-Type", "application/json")]
        (args.headers.getD [])
    data := args.body.map jsonStringify
    timeout := 30000 }

/-- Outcome of the axios call: a response, an error axios classifies as an
`AxiosError` (HTTP error status, or network-level failure; `response` is
present exactly when a response was received), or any other thrown fault
(reduced to its message by
`error instanceof Error ? error.message : String(error)`). -/
inductive TransportOutcome where
  | success (status : Int) (statusText : String) (data : Json)
      (headers : List (String × JSParam))
  | axiosError (message : String) (code : Option String)
      (response : Option ErrResponse)
  | otherFault (message : String)
deriving Repr, DecidableEq

inductive McpErrorCode where
  | invalidRequest
  | invalidParams
  | methodNotFound
  | internalError
deriving Repr, DecidableEq

/-- A thrown `McpError` (code and message). -/
structure McpErr where
  code : McpErrorCode
  message : String
deriving Repr, DecidableEq

/-- The `Object.entries(response.headers).reduce(...)` coercion to
`Record<string, string>`: string values kept, other non-nullish values
`String(...)`-coerced, `null`/`undefined` dropped. -/
def convertHeaders (hs : List (String × JSParam)) : List (String × String) :=
  hs.foldl
    (fun acc kv =>
      match kv.2 with
      | .undef => acc
      | .val (.str s) => acc ++ [(kv.1, s)]
      | .val .null => acc
      | .val j => acc ++ [(kv.1, jsToString j)])
    []

def readOnlyModeMessage : String :=
  "API calls are disabled in read-only mode. Use environment variable IRON_READ_ONLY_MODE=false to enable."

def apiKeyRequiredMessage : String :=
  "API key is required. Set the IRON_API_KEY environment variable."

/-- `handleInvokeApiEndpoint`, with the already-loaded spec as input and
the HTTP transport as an oracle function (the axios call).  An
`Except.error` is a thrown `McpError`; `Except.ok` is a returned textual
content payload.  The guards run in source order: read-only mode, API key
truthiness (`!this.config.apiKey`, so an empty-string key is also
rejected), endpoint lookup — all before the transport is consulted.  In
the catch branches the URL is recomputed as `baseUrl + path` *without* the
query string, exactly as in the source. -/
def handleInvokeApiEndpoint (config : ServerConfig) (spec : OpenAPISpec)
    (args : InvokeApiEndpointArgs)
    (transport : RequestConfig → TransportOutcome) : Except McpErr String :=
  if config.readOnlyMode then .error ⟨.invalidRequest, readOnlyModeMessage⟩
  else
    match config.apiKey with
    | none => .error ⟨.invalidRequest, apiKeyRequiredMessage⟩
    | some apiKey =>
        if apiKey = "" then .error ⟨.invalidRequest, apiKeyRequiredMessage⟩
        else
          match getEndpointDetails spec args.path args.method with
          | none =>
              .error ⟨.invalidRequest,
                "Endpoint not found: " ++ args.method ++ " " ++ args.path⟩
          | some endpointDetails =>
              let req := buildRequestConfig config apiKey args
              match transport req with
              | .success status statusText data headers =>
                  .ok (formatApiResponse
                    ⟨status, statusText, data, convertHeaders headers⟩
                    endpointDetails req.url ⟨args.path, args.method⟩)
              | .axiosError message code response =>
                  .ok (formatApiError ⟨message, code, response⟩
                    ⟨args.path, args.method⟩ (config.baseUrl ++ args.path))
              | .otherFault message =>
                  .ok (formatApiError ⟨message, none, none⟩
                    ⟨args.path, args.method⟩ (config.baseUrl ++ args.path))

theorem lookupKey_isSome_iff {k : String} :
    ∀ {kvs : List (String × Json)},
      (lookupKey k kvs).isSome = true ↔ k ∈ kvs.map Prod.fst := by
  intro kvs
  induction kvs with
  | nil => simp [lookupKey]
  | cons p rest ih =>
      obtain ⟨k', v⟩ := p
      by_cases h : k' = k
      · subst h
        simp [lookupKey]
      · simp [lookupKey, h, ih, Ne.symm h]

theorem isOpenAPIOperation_truthy {v : Json}
    (h : isOpenAPIOperation v = true) : v.truthy = true := by
  cases v <;> simp_all [isOpenAPIOperation, Json.truthy]

theorem lookupKey_of_mem_nodup {k : String} {v : Json} :
    ∀ {kvs : List (String × Json)}, (kvs.map Prod.fst).Nodup →
      (k, v) ∈ kvs → lookupKey k kvs = some v := by
  intro kvs
  induction kvs with
  | nil => intro _ h; simp at h
  | cons p rest ih =>
      intro hnd hmem
      obtain ⟨k', v'⟩ := p
      simp only [List.map_cons, List.nodup_cons] at hnd
      rcases List.mem_cons.mp hmem with heq | hmem2
      · obtain ⟨rfl, rfl⟩ : k' = k ∧ v' = v := by
          refine ⟨congrArg Prod.fst heq.symm, congrArg Prod.snd heq.symm⟩
        simp [lookupKey]
      · have hk : k' ≠ k := by
          intro hkk
          subst hkk
          exact hnd.1 (List.mem_map.mpr ⟨(k', v), hmem2, rfl⟩)
        simp [lookupKey, hk, ih hnd.2 hmem2]

theorem extract_inner_foldl (p : String) :
    ∀ (es : List (String × Json)) (acc : List EndpointSummary),
      es.foldl
        (fun acc2 me =>
          if isOpenAPIOperation me.2 then acc2 ++ [mkSummary p me.1 me.2]
          else acc2)
        acc =
      acc ++
        (es.filter (fun me => isOpenAPIOperation me.2)).map
          (fun me => mkSummary p me.1 me.2) := by
  intro es
  induction es with
  | nil => intro acc; simp
  | cons me rest ih =>
      intro acc
      by_cases h : isOpenAPIOperation me.2
      · simp [List.foldl_cons, h, ih, List.filter_cons]
      · simp [List.foldl_cons, h, ih, List.filter_cons]

theorem extract_outer_foldl :
    ∀ (paths : List (String × Json)) (acc : List EndpointSummary),
      paths.foldl
        (fun acc pe =>
          (entriesOf pe.2).foldl
            (fun acc2 me =>
              if isOpenAPIOperation me.2 then acc2 ++ [mkSummary pe.1 me.1 me.2]
              else acc2)
            acc)
        acc =
      acc ++
        paths.flatMap (fun pe =>
          ((entriesOf pe.2).filter (fun me => isOpenAPIOperation me.2)).map
            (fun me => mkSummary pe.1 me.1 me.2)) := by
  intro paths
  induction paths with
  | nil => intro acc; simp
  | cons pe rest ih =>
      intro acc
      rw [List.foldl_cons, ih, extract_inner_foldl, List.flatMap_cons,
        List.append_assoc]

/-- `extractEndpointSummaries` as a flat map with a filter: an endpoint
summary entry is emitted for a `(path, method)` pair exactly when the
value under the method key passes `isOpenAPIOperation`. -/
theorem extractEndpointSummaries_eq (spec : OpenAPISpec) :
    extractEndpointSummaries spec =
      spec.paths.flatMap (fun pe =>
        ((entriesOf pe.2).filter (fun me => isOpenAPIOperation me.2)).map
          (fun me => mkSummary pe.1 me.1 me.2)) := by
  unfold extractEndpointSummaries
  rw [extract_outer_foldl]
  simp

/-- Parameter values that survive the
`value !== undefined && value !== null` check. -/
def keepParam : JSParam → Bool
  | .undef => false
  | .val .null => false
  | .val _ => true

/-- `String(value)` on a parameter value (only applied to kept values). -/
def jsParamString : JSParam → String
  | .undef => "undefined"
  | .val j => jsToString j

theorem buildUrlParams_foldl :
    ∀ (ps : List (String × JSParam)) (acc : List (String × String)),
      ps.foldl
        (fun acc kv =>
          match kv.2 with
          | .undef => acc
          | .val .null => acc
          | .val j => acc ++ [(kv.1, jsToString j)])
        acc =
      acc ++
        (ps.filter (fun kv => keepParam kv.2)).map
          (fun kv => (kv.1, jsParamString kv.2)) := by
  intro ps
  induction ps with
  | nil => intro acc; simp
  | cons kv rest ih =>
      intro acc
      obtain ⟨k, v⟩ := kv
      match v with
      | .undef => simp [List.foldl_cons, ih, List.filter_cons, keepParam]
      | .val .null => simp [List.foldl_cons, ih, List.filter_cons, keepParam]
      | .val (.str s) =>
          simp [List.foldl_cons, ih, List.filter_cons, keepParam, jsParamString]
      | .val (.num n) =>
          simp [List.foldl_cons, ih, List.filter_cons, keepParam, jsParamString]
      | .val (.bool b) =>
          simp [List.foldl_cons, ih, List.filter_cons, keepParam, jsParamString]
      | .val (.arr l) =>
          simp [List.foldl_cons, ih, List.filter_cons, keepParam, jsParamString]
      | .val (.obj kvs) =>
          simp [List.foldl_cons, ih, List.filter_cons, keepParam, jsParamString]

theorem buildUrlParams_eq (ps : List (String × JSParam)) :
    buildUrlParams ps =
      (ps.filter (fun kv => keepParam kv.2)).map
        (fun kv => (kv.1, jsParamString kv.2)) := by
  unfold buildUrlParams
  rw [buildUrlParams_foldl]
  simp

theorem lookupBucket_map_update (tag : String) (e : EndpointSummary) :
    ∀ (m : List (String × List EndpointSummary)) (t : String),
      lookupBucket t
          (m.map (fun p => if p.1 = tag then (p.1, p.2 ++ [e]) else p)) =
        if t = tag then (lookupBucket t m).map (fun l => l ++ [e])
        else lookupBucket t m := by
  intro m
  induction m with
  | nil => intro t; by_cases ht : t = tag <;> simp [lookupBucket, ht]
  | cons p rest ih =>
      intro t
      obtain ⟨k, l⟩ := p
      have hd : (if (k, l).1 = tag then ((k, l).1, (k, l).2 ++ [e]) else (k, l)) =
          if k = tag then (k, l ++ [e]) else (k, l) := by
        by_cases hk : k = tag <;> simp [hk]
      rw [List.map_cons, hd]
      by_cases hk : k = tag
      · subst hk
        rw [if_pos rfl]
        by_cases ht : t = k
        · subst ht
          simp [lookupBucket]
        · have h1 : k ≠ t := fun h => ht h.symm
          simp [lookupBucket, ih, ht, h1]
      · rw [if_neg hk]
        by_cases hkt : k = t
        · subst hkt
          have htag : ¬ k = tag := hk
          simp [lookupBucket, htag]
        · simp [lookupBucket, ih, hkt]

theorem lookupBucket_append (t : String) :
    ∀ (m m' : List (String × List EndpointSummary)),
      lookupBucket t (m ++ m') =
        match lookupBucket t m with
        | some v => some v
        | none => lookupBucket t m' := by
  intro m m'
  induction m with
  | nil => simp [lookupBucket]
  | cons p rest ih =>
      obtain ⟨k, l⟩ := p
      by_cases hk : k = t
      · simp [lookupBucket, hk]
      · simp [lookupBucket, hk, ih]

theorem lookupBucket_addToBucket (m : List (String × List EndpointSummary))
    (tag t : String) (e : EndpointSummary) :
    lookupBucket t (addToBucket m tag e) =
      if t = tag then some ((lookupBucket tag m).getD [] ++ [e])
      else lookupBucket t m := by
  unfold addToBucket
  cases hb : lookupBucket tag m with
  | some b =>
      rw [lookupBucket_map_update]
      by_cases ht : t = tag
      · subst ht
        simp [hb]
      · simp [ht]
  | none =>
      rw [lookupBucket_append]
      by_cases ht : t = tag
      · subst ht
        rw [hb]
        simp [lookupBucket]
      · cases hm : lookupBucket t m with
        | some v => simp [hm, ht]
        | none => simp [hm, ht, lookupBucket, Ne.symm ht]

theorem groupFold_lookup (t : String) :
    ∀ (es : List EndpointSummary) (m : List (String × List EndpointSummary)),
      lookupBucket t (es.foldl (fun m e => addToBucket m (primaryTag e) e) m) =
        if (lookupBucket t m).isSome = true ∨
            es.any (fun e => primaryTag e = t) = true then
          some ((lookupBucket t m).getD [] ++
            es.filter (fun e => primaryTag e = t))
        else none := by
  intro es
  induction es with
  | nil =>
      intro m
      cases h : lookupBucket t m <;> simp [h]
  | cons e es ih =>
      intro m
      rw [List.foldl_cons, ih]
      rw [lookupBucket_addToBucket]
      by_cases ht : t = primaryTag e
      · have ht' : primaryTag e = t := ht.symm
        rw [if_pos ht]
        simp [List.any_cons, List.filter_cons, ht', List.append_assoc]
      · have ht' : primaryTag e ≠ t := fun h => ht h.symm
        rw [if_neg ht]
        simp [List.any_cons, List.filter_cons, ht']

/-- C1 (counterexample): reference resolution is not idempotent even on a
cycle-free schema table.  The spec's only schema `A = {type: "string"}`
contains no reference at all (first conjunct), yet resolving the node
`[{$ref: A}, {$ref: A}]` once resolves only the first occurrence — the
mutable visited set is shared across sibling array elements, so the second
occurrence hits the cycle guard — and resolving a second time changes the
result again. -/
theorem resolveReferences_not_idempotent_on_acyclic_spec :
    jrefs (Json.obj [("type", Json.str "string")]) = ∅ ∧
    resolveSchemaReferences
        ⟨none, [], [("A", Json.obj [("type", Json.str "string")])]⟩
        (resolveSchemaReferences
          ⟨none, [], [("A", Json.obj [("type", Json.str "string")])]⟩
          (Json.arr [Json.obj [("$ref", Json.str "#/components/schemas/A")],
            Json.obj [("$ref", Json.str "#/components/schemas/A")]])) ≠
      resolveSchemaReferences
        ⟨none, [], [("A", Json.obj [("type", Json.str "string")])]⟩
        (Json.arr [Json.obj [("$ref", Json.str "#/components/schemas/A")],
          Json.obj [("$ref", Json.str "#/components/schemas/A")]]) := by
  have hrt : refTarget ⟨none, [], [("A", Json.obj [("type", Json.str "string")])]⟩
      "#/components/schemas/A" = some (Json.obj [("type", Json.str "string")]) := by
    decide
  have h1 : resolveSchemaReferences
      ⟨none, [], [("A", Json.obj [("type", Json.str "string")])]⟩
      (Json.arr [Json.obj [("$ref", Json.str "#/components/schemas/A")],
        Json.obj [("$ref", Json.str "#/components/schemas/A")]]) =
      Json.arr [Json.obj [("type", Json.str "string")],
        Json.obj [("$ref", Json.str "#/components/schemas/A")]] := by
    simp [resolveSchemaReferences, resolveListA_cons, resolveListA_nil,
      resolveKVsA_cons, resolveKVsA_nil, resolveA_str, resolveA_arr,
      resolveA_ref_guard, resolveA_ref_expand, resolveA_obj_plain, hrt, lookupKey]
  have h2 : resolveSchemaReferences
      ⟨none, [], [("A", Json.obj [("type", Json.str "string")])]⟩
      (Json.arr [Json.obj [("type", Json.str "string")],
        Json.obj [("$ref", Json.str "#/components/schemas/A")]]) =
      Json.arr [Json.obj [("type", Json.str "string")],
        Json.obj [("type", Json.str "string")]] := by
    simp [resolveSchemaReferences, resolveListA_cons, resolveListA_nil,
      resolveKVsA_cons, resolveKVsA_nil, resolveA_str, resolveA_arr,
      resolveA_ref_guard, resolveA_ref_expand, resolveA_obj_plain, hrt, lookupKey]
  refine ⟨by decide, ?_⟩
  rw [h1, h2]
  decide

/-- C1 (amended): resolution is idempotent on every node whose first
resolution eliminates all references: if `resolve(node)` contains no
`$ref` key anywhere, then `resolve(resolve(node)) = resolve(node)`.
(Acyclicity of the schema table is not sufficient, see the counterexample:
a reference occurring twice in one traversal leaves an unresolved `{$ref}`
wrapper behind because the visited set is shared across siblings.) -/
theorem resolveReferences_idempotent_of_refFree_result (spec : OpenAPISpec)
    (node : Json)
    (h : refFree (resolveSchemaReferences spec node) = true) :
    resolveSchemaReferences spec (resolveSchemaReferences spec node) =
      resolveSchemaReferences spec node := by
  unfold resolveSchemaReferences at h ⊢
  rw [resolveA_refFree spec _ [] h]

/-- C1 (witness for the amended theorem): a single reference to the
string schema resolves to a `$ref`-free result, and resolving again is the
identity on it. -/
theorem resolveReferences_idempotent_witness :
    refFree (resolveSchemaReferences
        ⟨none, [], [("A", Json.obj [("type", Json.str "string")])]⟩
        (Json.obj [("$ref", Json.str "#/components/schemas/A")])) = true ∧
    resolveSchemaReferences
        ⟨none, [], [("A", Json.obj [("type", Json.str "string")])]⟩
        (resolveSchemaReferences
          ⟨none, [], [("A", Json.obj [("type", Json.str "string")])]⟩
          (Json.obj [("$ref", Json.str "#/components/schemas/A")])) =
      resolveSchemaReferences
        ⟨none, [], [("A", Json.obj [("type", Json.str "string")])]⟩
        (Json.obj [("$ref", Json.str "#/components/schemas/A")]) := by
  have hrt : refTarget ⟨none, [], [("A", Json.obj [("type", Json.str "string")])]⟩
      "#/components/schemas/A" = some (Json.obj [("type", Json.str "string")]) := by
    decide
  have heval : resolveSchemaReferences
      ⟨none, [], [("A", Json.obj [("type", Json.str "string")])]⟩
      (Json.obj [("$ref", Json.str "#/components/schemas/A")]) =
      Json.obj [("type", Json.str "string")] := by
    simp [resolveSchemaReferences, resolveKVsA_cons, resolveKVsA_nil,
      resolveA_str, resolveA_ref_expand, resolveA_obj_plain, hrt, lookupKey]
  have h : refFree (resolveSchemaReferences
      ⟨none, [], [("A", Json.obj [("type", Json.str "string")])]⟩
      (Json.obj [("$ref", Json.str "#/components/schemas/A")])) = true := by
    rw [heval]; decide
  exact ⟨h, resolveReferences_idempotent_of_refFree_result _ _ h⟩

/-- C2: for every spec containing a self-referential schema `A` (any
schema body from which a `{$ref: "#/components/schemas/A"}` node is
reachable through arrays and plain object properties), resolving the node
`{$ref: "#/components/schemas/A"}` terminates — the resolver is a total
function, defined by well-founded recursion on (unvisited references,
node size) — and its result still contains the bare `{$ref}` wrapper at
the cycle point, produced by the visited-set guard. -/
theorem resolveReferences_self_ref_cycle_marker (spec : OpenAPISpec)
    (A : String) (schemaA : Json)
    (hA : lookupKey A spec.schemas = some schemaA)
    (hsplit : splitSlash ("#/components/schemas/" ++ A) =
      ["#", "components", "schemas", A])
    (hreach : Reaches ("#/components/schemas/" ++ A) schemaA) :
    JContains (Json.obj [("$ref", Json.str ("#/components/schemas/" ++ A))])
      (resolveSchemaReferences spec
        (Json.obj [("$ref", Json.str ("#/components/schemas/" ++ A))])) := by
  have htr : refTarget spec ("#/components/schemas/" ++ A) = some schemaA := by
    unfold refTarget
    rw [hsplit]
    simp [hA, Reaches_truthy hreach]
  unfold resolveSchemaReferences
  rw [resolveA_ref_expand spec (by simp [lookupKey]) (by simp) htr]
  exact resolveA_reaches spec hreach _ (by simp)

/-- C2 (witness): the concrete self-referential schema
`A = {type: "object", properties: {self: {$ref: "#/components/schemas/A"}}}`;
resolving `{$ref: "#/components/schemas/A"}` yields a result containing
the unresolved wrapper. -/
theorem resolveReferences_self_ref_cycle_marker_witness :
    JContains (Json.obj [("$ref", Json.str "#/components/schemas/A")])
      (resolveSchemaReferences
        ⟨none, [],
          [("A", Json.obj [("type", Json.str "object"),
            ("properties", Json.obj [("self",
              Json.obj [("$ref", Json.str "#/components/schemas/A")])])])]⟩
        (Json.obj [("$ref", Json.str "#/components/schemas/A")])) := by
  have h := resolveReferences_self_ref_cycle_marker
    ⟨none, [],
      [("A", Json.obj [("type", Json.str "object"),
        ("properties", Json.obj [("self",
          Json.obj [("$ref", Json.str "#/components/schemas/A")])])])]⟩
    "A"
    (Json.obj [("type", Json.str "object"),
      ("properties", Json.obj [("self",
        Json.obj [("$ref", Json.str "#/components/schemas/A")])])])
    (by decide) (by decide)
    (@Reaches.inObj "#/components/schemas/A"
      [("type", Json.str "object"),
        ("properties", Json.obj [("self",
          Json.obj [("$ref", Json.str "#/components/schemas/A")])])]
      "properties"
      (Json.obj [("self", Json.obj [("$ref", Json.str "#/components/schemas/A")])])
      (by decide) (by decide)
      (@Reaches.inObj "#/components/schemas/A"
        [("self", Json.obj [("$ref", Json.str "#/components/schemas/A")])]
        "self" (Json.obj [("$ref", Json.str "#/components/schemas/A")])
        (by decide) (by decide)
        (Reaches.here (by decide))))
  exact h

/-- C3: with `readOnlyMode` on, every invocation — any method, any path,
any spec — is rejected with the read-only `McpError` before the transport
is consulted (the result does not depend on the transport oracle at all). -/
theorem readOnlyMode_rejects_every_invocation (config : ServerConfig)
    (spec : OpenAPISpec) (args : InvokeApiEndpointArgs)
    (transport : RequestConfig → TransportOutcome)
    (h : config.readOnlyMode = true) :
    handleInvokeApiEndpoint config spec args transport =
      .error ⟨.invalidRequest, readOnlyModeMessage⟩ := by
  simp [handleInvokeApiEndpoint, h]

/-- C3 (witness): a `GET /customers` that does exist in the spec, with an
API key configured, is still rejected in read-only mode. -/
theorem readOnlyMode_rejects_witness :
    getEndpointDetails
        ⟨none, [("/customers", Json.obj [("get",
          Json.obj [("summary", Json.str "List customers")])])], []⟩
        "/customers" "GET" ≠ none ∧
    handleInvokeApiEndpoint ⟨some "secret", true, "https://api.iron.xyz/api"⟩
        ⟨none, [("/customers", Json.obj [("get",
          Json.obj [("summary", Json.str "List customers")])])], []⟩
        ⟨"/customers", "GET", none, none, none⟩
        (fun _ => .otherFault "transport must not be reached") =
      .error ⟨.invalidRequest, readOnlyModeMessage⟩ :=
  ⟨by decide, readOnlyMode_rejects_every_invocation _ _ _ _ rfl⟩

/-- C4: once the preconditions pass (read-only off, truthy API key,
endpoint found), the handler never propagates a fault: every transport
outcome yields an `Except.ok` textual result; an axios-classified error
is rendered by `formatApiError` on the record `{message, code?,
response?}`, and any other fault by `formatApiError` on `{message}` alone
(both with the query-less `baseUrl + path` URL of the catch block). -/
theorem invoke_transport_faults_return_formatted (config : ServerConfig)
    (spec : OpenAPISpec) (args : InvokeApiEndpointArgs) (k : String)
    (details : EndpointDetails)
    (hro : config.readOnlyMode = false)
    (hk : config.apiKey = some k) (hk2 : k ≠ "")
    (hdet : getEndpointDetails spec args.path args.method = some details) :
    (∀ outcome : TransportOutcome, ∃ text : String,
      handleInvokeApiEndpoint config spec args (fun _ => outcome) = .ok text) ∧
    (∀ (message : String) (code : Option String)
        (response : Option ErrResponse),
      handleInvokeApiEndpoint config spec args
          (fun _ => .axiosError message code response) =
        .ok (formatApiError ⟨message, code, response⟩ ⟨args.path, args.method⟩
          (config.baseUrl ++ args.path))) ∧
    (∀ message : String,
      handleInvokeApiEndpoint config spec args (fun _ => .otherFault message) =
        .ok (formatApiError ⟨message, none, none⟩ ⟨args.path, args.method⟩
          (config.baseUrl ++ args.path))) := by
  refine ⟨?_, ?_, ?_⟩
  · intro outcome
    cases outcome with
    | success st stx data hdrs =>
        exact ⟨formatApiResponse ⟨st, stx, data, convertHeaders hdrs⟩ details
          (buildRequestConfig config k args).url ⟨args.path, args.method⟩,
          by simp [handleInvokeApiEndpoint, hro, hk, hk2, hdet]⟩
    | axiosError m c r =>
        exact ⟨formatApiError ⟨m, c, r⟩ ⟨args.path, args.method⟩
          (config.baseUrl ++ args.path),
          by simp [handleInvokeApiEndpoint, hro, hk, hk2, hdet]⟩
    | otherFault m =>
        exact ⟨formatApiError ⟨m, none, none⟩ ⟨args.path, args.method⟩
          (config.baseUrl ++ args.path),
          by simp [handleInvokeApiEndpoint, hro, hk, hk2, hdet]⟩
  · intro m c r
    simp [handleInvokeApiEndpoint, hro, hk, hk2, hdet]
  · intro m
    simp [handleInvokeApiEndpoint, hro, hk, hk2, hdet]

/-- C4 (witness): a concrete non-axios fault on a known endpoint returns
the formatted `{message}`-only error text. -/
theorem invoke_transport_faults_witness :
    handleInvokeApiEndpoint ⟨some "secret", false, "https://api.iron.xyz/api"⟩
        ⟨none, [("/customers", Json.obj [("get",
          Json.obj [("summary", Json.str "List customers")])])], []⟩
        ⟨"/customers", "GET", none, none, none⟩
        (fun _ => .otherFault "boom") =
      .ok (formatApiError ⟨"boom", none, none⟩ ⟨"/customers", "GET"⟩
        "https://api.iron.xyz/api/customers") :=
  (invoke_transport_faults_return_formatted _ _ _ "secret"
    ⟨some (Json.str "List customers"), none, none, none, none, none, none⟩
    rfl rfl (by decide) (by decide)).2.2 "boom"

/-- C5 (counterexample): a path item with the mixed-case method key `"Get"`
breaks the summaries/details round trip: `listSummaries` emits the pair
`("/p", "GET")` (method upper-cased), but `getDetails` lower-cases `"GET"`
to `"get", which is not a key of the path item, so it returns `null`. -/
theorem listSummaries_getDetails_counterexample :
    (extractEndpointSummaries
        ⟨none, [("/p", Json.obj [("Get", Json.obj [("summary", Json.str "s"),
          ("operationId", Json.str "op")])])], []⟩).map
      (fun e => (e.path, e.method)) = [("/p", "GET")] ∧
    getEndpointDetails
        ⟨none, [("/p", Json.obj [("Get", Json.obj [("summary", Json.str "s"),
          ("operationId", Json.str "op")])])], []⟩
        "/p" "GET" = none := by
  decide

/-- C5 (amended): the round trip holds for every spec whose path items are
objects with distinct keys, distinct path keys, and method keys that are
fixed by the upper-case-then-lower-case round trip (in particular, all
lower-case method keys): every `(path, method)` pair emitted by
`listSummaries` has a non-absent `getDetails` record with the same
`operationId` and `summary`. -/
theorem listSummaries_getDetails_match (spec : OpenAPISpec)
    (hnd : (spec.paths.map Prod.fst).Nodup)
    (hitems : ∀ p pi, (p, pi) ∈ spec.paths → ∃ kvs, pi = Json.obj kvs ∧
      (kvs.map Prod.fst).Nodup ∧
      ∀ m op, (m, op) ∈ kvs → toLowerAscii (toUpperAscii m) = m) :
    ∀ e ∈ extractEndpointSummaries spec, ∃ d : EndpointDetails,
      getEndpointDetails spec e.path e.method = some d ∧
      d.operationId = e.operationId ∧ d.summary = e.summary := by
  intro e he
  rw [extractEndpointSummaries_eq, List.mem_flatMap] at he
  obtain ⟨⟨p, pi⟩, hpi, he2⟩ := he
  rw [List.mem_map] at he2
  obtain ⟨⟨m, op⟩, hmem, rfl⟩ := he2
  rw [List.mem_filter] at hmem
  obtain ⟨hmem, hop⟩ := hmem
  obtain ⟨kvs, rfl, hknd, hround⟩ := hitems p pi hpi
  simp only [entriesOf] at hmem
  refine ⟨⟨op.getField "summary", op.getField "description",
    op.getField "operationId", op.getField "parameters",
    op.getField "requestBody", op.getField "responses",
    op.getField "tags"⟩, ?_, rfl, rfl⟩
  have htr : op.truthy = true := isOpenAPIOperation_truthy hop
  have hpt : (Json.obj kvs).truthy = true := rfl
  simp only [mkSummary]
  simp [getEndpointDetails, lookupKey_of_mem_nodup hnd hpi,
    Json.getField, hround m op hmem, lookupKey_of_mem_nodup hknd hmem,
    htr, hpt]

/-- C5 (witness for the amended theorem): on a lower-case-keyed spec, the
`("/customers", "GET")` summary round-trips to a matching detail record. -/
theorem listSummaries_getDetails_witness :
    ∃ d : EndpointDetails,
      getEndpointDetails
          ⟨none, [("/customers", Json.obj [("get", Json.obj
            [("summary", Json.str "List"),
              ("operationId", Json.str "listCustomers")])])], []⟩
          "/customers" "GET" = some d ∧
      d.operationId = some (Json.str "listCustomers") ∧
      d.summary = some (Json.str "List") := by
  have h := listSummaries_getDetails_match
    ⟨none, [("/customers", Json.obj [("get", Json.obj
      [("summary", Json.str "List"),
        ("operationId", Json.str "listCustomers")])])], []⟩
    (by decide)
    (by
      intro p pi hmem
      simp only [List.mem_singleton] at hmem
      obtain ⟨rfl, rfl⟩ := Prod.mk.inj hmem
      refine ⟨_, rfl, by decide, ?_⟩
      intro m op hm
      simp only [List.mem_singleton] at hm
      obtain ⟨rfl, rfl⟩ := Prod.mk.inj hm
      decide)
    (mkSummary "/customers" "get" (Json.obj
      [("summary", Json.str "List"),
        ("operationId", Json.str "listCustomers")]))
    (by decide)
  have hme : (mkSummary "/customers" "get" (Json.obj
      [("summary", Json.str "List"),
        ("operationId", Json.str "listCustomers")])).method = "GET" := by decide
  have hpa : (mkSummary "/customers" "get" (Json.obj
      [("summary", Json.str "List"),
        ("operationId", Json.str "listCustomers")])).path = "/customers" := by decide
  have hoi : (mkSummary "/customers" "get" (Json.obj
      [("summary", Json.str "List"),
        ("operationId", Json.str "listCustomers")])).operationId =
      some (Json.str "listCustomers") := by decide
  have hsu : (mkSummary "/customers" "get" (Json.obj
      [("summary", Json.str "List"),
        ("operationId", Json.str "listCustomers")])).summary =
      some (Json.str "List") := by decide
  rw [hme, hpa, hoi, hsu] at h
  exact h

/-- C6: the query string is exactly the insertion-ordered,
form-urlencoded `k=String(v)` pairs of the parameters whose values are
neither `undefined` nor `null` — and in particular
`{limit: 10, offset: 0}` serializes to `limit=10&offset=0`, also through
the full request-URL composition. -/
theorem queryString_exactly_defined_params_in_order :
    (∀ parameters : List (String × JSParam),
      buildQueryString parameters =
        String.intercalate "&"
          ((parameters.filter (fun kv => keepParam kv.2)).map
            (fun kv => formEncode kv.1 ++ "=" ++
              formEncode (jsParamString kv.2)))) ∧
    buildQueryString [("limit", .val (.num 10)), ("offset", .val (.num 0))] =
      "limit=10&offset=0" ∧
    (buildRequestConfig ⟨some "secret", false, "https://api.iron.xyz/api"⟩
        "secret"
        ⟨"/customers", "GET",
          some [("limit", .val (.num 10)), ("offset", .val (.num 0))],
          none, none⟩).url =
      "https://api.iron.xyz/api/customers?limit=10&offset=0" := by
  refine ⟨?_, by decide, by decide⟩
  intro ps
  unfold buildQueryString serializeUrlParams
  rw [buildUrlParams_eq, List.map_map]
  rfl

/-- C7 (counterexample): invoking `list-all-endpoints` with
`filterByTag = ""` on a spec whose only endpoint is tagged `"Customer"`
(so the empty string labels no endpoint) does *not* return an empty
summary: `if (args.filterByTag)` is falsy on `""`, so no filtering
happens and the full listing (1 endpoint, non-empty bucket map) is
returned. -/
theorem filterByTag_empty_tag_counterexample :
    (extractEndpointSummaries
        ⟨none, [("/customers", Json.obj [("get", Json.obj
          [("summary", Json.str "L"),
            ("tags", Json.arr [Json.str "Customer"])])])], []⟩).map
      (fun e => e.tags) = [some (Json.arr [Json.str "Customer"])] ∧
    (handleListAllEndpoints
        ⟨none, [("/customers", Json.obj [("get", Json.obj
          [("summary", Json.str "L"),
            ("tags", Json.arr [Json.str "Customer"])])])], []⟩
        (some "")).totalEndpoints = 1 ∧
    (handleListAllEndpoints
        ⟨none, [("/customers", Json.obj [("get", Json.obj
          [("summary", Json.str "L"),
            ("tags", Json.arr [Json.str "Customer"])])])], []⟩
        (some "")).endpointsByTag ≠ [] := by
  decide

/-- C7 (amended): for every *non-empty* tag string, `list-all-endpoints`
with that `filterByTag` returns `totalEndpoints = 0` and an empty bucket
mapping (no error) when the tag is no endpoint's grouping label (first
tag, or `"default"` for untagged endpoints), and when some endpoint does
carry it as grouping label, the result is exactly that one bucket — the
grouping-label-filtered summaries — with `totalEndpoints` its length. -/
theorem filterByTag_unknown_empty_known_restricts (spec : OpenAPISpec)
    (tag : String) (hne : tag ≠ "") :
    ((∀ e ∈ extractEndpointSummaries spec, primaryTag e ≠ tag) →
      (handleListAllEndpoints spec (some tag)).totalEndpoints = 0 ∧
      (handleListAllEndpoints spec (some tag)).endpointsByTag = []) ∧
    ((∃ e ∈ extractEndpointSummaries spec, primaryTag e = tag) →
      (handleListAllEndpoints spec (some tag)).endpointsByTag =
        [(tag, (extractEndpointSummaries spec).filter
          (fun e => primaryTag e = tag))] ∧
      (handleListAllEndpoints spec (some tag)).totalEndpoints =
        ((extractEndpointSummaries spec).filter
          (fun e => primaryTag e = tag)).length) := by
  have hlook : lookupBucket tag (createSummary spec).endpointsByTag =
      if (extractEndpointSummaries spec).any (fun e => primaryTag e = tag) =
          true then
        some ((extractEndpointSummaries spec).filter
          (fun e => primaryTag e = tag))
      else none := by
    simp only [createSummary]
    rw [groupFold_lookup]
    simp [lookupBucket]
  constructor
  · intro hno
    have hany : (extractEndpointSummaries spec).any
        (fun e => primaryTag e = tag) = false := by
      rw [List.any_eq_false]
      intro e he
      simp [hno e he]
    rw [hany] at hlook
    simp only [Bool.false_eq_true, if_false] at hlook
    constructor <;> simp [handleListAllEndpoints, hne, hlook]
  · intro hex
    have hany : (extractEndpointSummaries spec).any
        (fun e => primaryTag e = tag) = true := by
      rw [List.any_eq_true]
      obtain ⟨e, he, hpe⟩ := hex
      exact ⟨e, he, by simp [hpe]⟩
    rw [hany] at hlook
    simp only [if_true] at hlook
    constructor <;> simp [handleListAllEndpoints, hne, hlook]

/-- C7 (witness for the amended theorem): on a one-endpoint spec tagged
`"Customer"`, filtering by the absent tag `"Nope"` yields the empty
summary, and filtering by `"Customer"` yields exactly that bucket. -/
theorem filterByTag_behavior_witness :
    ((handleListAllEndpoints
        ⟨none, [("/customers", Json.obj [("get", Json.obj
          [("summary", Json.str "L"),
            ("tags", Json.arr [Json.str "Customer"])])])], []⟩
        (some "Nope")).totalEndpoints = 0 ∧
      (handleListAllEndpoints
        ⟨none, [("/customers", Json.obj [("get", Json.obj
          [("summary", Json.str "L"),
            ("tags", Json.arr [Json.str "Customer"])])])], []⟩
        (some "Nope")).endpointsByTag = []) ∧
    ((handleListAllEndpoints
        ⟨none, [("/customers", Json.obj [("get", Json.obj
          [("summary", Json.str "L"),
            ("tags", Json.arr [Json.str "Customer"])])])], []⟩
        (some "Customer")).endpointsByTag =
      [("Customer",
        (extractEndpointSummaries
          ⟨none, [("/customers", Json.obj [("get", Json.obj
            [("summary", Json.str "L"),
              ("tags", Json.arr [Json.str "Customer"])])])], []⟩).filter
          (fun e => primaryTag e = "Customer"))] ∧
      (handleListAllEndpoints
        ⟨none, [("/customers", Json.obj [("get", Json.obj
          [("summary", Json.str "L"),
            ("tags", Json.arr [Json.str "Customer"])])])], []⟩
        (some "Customer")).totalEndpoints =
      ((extractEndpointSummaries
        ⟨none, [("/customers", Json.obj [("get", Json.obj
          [("summary", Json.str "L"),
            ("tags", Json.arr [Json.str "Customer"])])])], []⟩).filter
        (fun e => primaryTag e = "Customer")).length) := by
  constructor
  · exact (filterByTag_unknown_empty_known_restricts _ "Nope"
      (by decide)).1 (by decide)
  · exact (filterByTag_unknown_empty_known_restricts _ "Customer"
      (by decide)).2 (by decide)

/-- C8: the operation-recognition predicate accepts a value exactly when
it is a (non-null) object carrying at least one of the keys `responses`,
`summary`, `description`, `operationId`; and `listSummaries` emits a
`(path, method)` entry exactly for the method-key entries whose value
passes this predicate (the flat-map/filter characterization of the
extraction loops). -/
theorem isOperation_predicate_characterization :
    (∀ v : Json, isOpenAPIOperation v = true ↔
      ∃ kvs, v = Json.obj kvs ∧
        ("responses" ∈ kvs.map Prod.fst ∨ "summary" ∈ kvs.map Prod.fst ∨
          "description" ∈ kvs.map Prod.fst ∨
          "operationId" ∈ kvs.map Prod.fst)) ∧
    (∀ spec : OpenAPISpec,
      extractEndpointSummaries spec =
        spec.paths.flatMap (fun pe =>
          ((entriesOf pe.2).filter (fun me => isOpenAPIOperation me.2)).map
            (fun me => mkSummary pe.1 me.1 me.2))) := by
  refine ⟨?_, extractEndpointSummaries_eq⟩
  intro v
  cases v with
  | obj kvs =>
      constructor
      · intro h
        refine ⟨kvs, rfl, ?_⟩
        simp only [← lookupKey_isSome_iff]
        have h' := by simpa [isOpenAPIOperation] using h
        tauto
      · rintro ⟨kvs', heq, h⟩
        injection heq with heq
        subst heq
        simp only [← lookupKey_isSome_iff] at h
        simp [isOpenAPIOperation]
        tauto
  | str s => simp [isOpenAPIOperation]
  | num n => simp [isOpenAPIOperation]
  | bool b => simp [isOpenAPIOperation]
  | null => simp [isOpenAPIOperation]
  | arr l => simp [isOpenAPIOperation]

/-- C10: `getDetails` applies no operation-shape check: whenever the path
item is truthy and has any truthy value under the lower-cased method key,
a record is returned (its fields are plain property reads of that value);
in particular, for a path item with a path-level `parameters` array,
`getDetails(spec, path, "PARAMETERS")` returns a record all of whose
operation fields are `undefined`. -/
theorem getDetails_truthy_lookup_no_shape_check (spec : OpenAPISpec)
    (path : String) :
    (∀ (method : String) (pathItem v : Json),
      lookupKey path spec.paths = some pathItem →
      pathItem.truthy = true →
      pathItem.getField (toLowerAscii method) = some v →
      v.truthy = true →
      getEndpointDetails spec path method =
        some ⟨v.getField "summary", v.getField "description",
          v.getField "operationId", v.getField "parameters",
          v.getField "requestBody", v.getField "responses",
          v.getField "tags"⟩) ∧
    (∀ (kvs : List (String × Json)) (ps : List Json),
      lookupKey path spec.paths = some (Json.obj kvs) →
      lookupKey "parameters" kvs = some (Json.arr ps) →
      getEndpointDetails spec path "PARAMETERS" =
        some ⟨none, none, none, none, none, none, none⟩) := by
  constructor
  · intro method pathItem v h1 h2 h3 h4
    simp [getEndpointDetails, h1, h2, h3, h4]
  · intro kvs ps h1 h2
    have hlow : toLowerAscii "PARAMETERS" = "parameters" := by decide
    simp [getEndpointDetails, h1, Json.truthy, Json.getField, hlow, h2]

/-- C10 (witness): a concrete path item carrying a path-level `parameters`
list yields an all-`undefined` record under the pseudo-method
`"PARAMETERS"`. -/
theorem getDetails_truthy_lookup_witness :
    getEndpointDetails
        ⟨none, [("/customers", Json.obj
          [("parameters", Json.arr [Json.obj [("name", Json.str "limit")]]),
            ("get", Json.obj [("summary", Json.str "L")])])], []⟩
        "/customers" "PARAMETERS" =
      some ⟨none, none, none, none, none, none, none⟩ :=
  (getDetails_truthy_lookup_no_shape_check _ "/customers").2
    [("parameters", Json.arr [Json.obj [("name", Json.str "limit")]]),
      ("get", Json.obj [("summary", Json.str "L")])]
    [Json.obj [("name", Json.str "limit")]]
    (by decide) (by decide)
